import Mathlib

/-!
Verification of the position-preserving redaction pipeline.

A shallow embedding, in Lean 4, of the core of the legal-document masking
tool: segment extraction for word-processor documents
(`src/pipelines/docx_segments.py`), the overlap-resolving masking engine
(`src/engine/masking_engine.py` together with `stable_id.py`,
`text_rules.py`, `address_rules.py`, `date_rules.py`, `normalize.py`),
the run-splitting document writer (`src/pipelines/docx_rewrite.py`) and
the coordinate-based PDF quad lookup (`src/pipelines/pdf_pipeline.py`).

Texts are modelled as `List Char` (one entry per Python character);
Python `float` scores and PDF coordinates are modelled as `ℚ`; Python
dicts are modelled as insertion-ordered association lists.  Calls into
external Python libraries (`unicodedata.normalize`, `str.format` and the
`re` regex engine) are modelled as parameters of the embedding, collected
in `PyEnv`; every theorem below holds for an arbitrary `PyEnv`, and
closed evaluations instantiate it with concrete functions.
-/

namespace LegalMask

/-! ## Python string primitives -/

/-- Python slice `l[s:e]` for non-negative indices: both bounds clamp to
the list length, and an empty list results when `e ≤ s`. -/
def pySlice (l : List Char) (s e : Nat) : List Char :=
  (l.drop s).take (e - s)

/-- The set of characters Python's `str` whitespace class (`\s`, and
`str.strip()` / `str.isspace()`) recognises. -/
def pyIsSpace (c : Char) : Bool :=
  c = ' ' || c = '\t' || c = '\n' || c = '\r' ||
  c = (Char.ofNat 0x0b) || c = (Char.ofNat 0x0c) ||
  c = (Char.ofNat 0x1c) || c = (Char.ofNat 0x1d) ||
  c = (Char.ofNat 0x1e) || c = (Char.ofNat 0x1f) ||
  c = (Char.ofNat 0x85) || c = (Char.ofNat 0xa0) ||
  c = (Char.ofNat 0x1680) ||
  (0x2000 ≤ c.toNat && c.toNat ≤ 0x200a) ||
  c = (Char.ofNat 0x2028) || c = (Char.ofNat 0x2029) ||
  c = (Char.ofNat 0x202f) || c = (Char.ofNat 0x205f) ||
  c = (Char.ofNat 0x3000)

/-- Python `s.strip()`: remove leading and trailing whitespace. -/
def pyStrip (l : List Char) : List Char :=
  ((l.dropWhile pyIsSpace).reverse.dropWhile pyIsSpace).reverse

/-- Python substring test `needle in haystack`. -/
def isSubstring (needle haystack : List Char) : Bool :=
  haystack.tails.any (fun t => needle.isPrefixOf t)

/-! ## `src/pipelines/docx_segments.py` — SegmentMapper for DOCX

The traversal of the `python-docx` object graph (headers, footers, body
paragraphs, table cells, in that fixed order) is represented by the list
of `(kind, text)` pairs it visits; `add_seg` is embedded verbatim.  The
`obj` field of the Python `Segment` is a non-owning reference into the
document object graph and carries no information used by any claim, so it
is dropped from the record. -/

/-- Python string formatting of the running index: decimal rendering
left-padded with zeros to width 6. -/
def pad6 (n : Nat) : String :=
  let s := toString n
  String.mk (List.replicate (6 - s.length) '0') ++ s

structure Segment where
  seg_id : String
  kind : String
  text : List Char
  global_start : Nat
  global_end : Nat
  deriving DecidableEq, Repr

structure ExtractState where
  buf : List Char
  segments : List Segment
  cur : Nat
  idx : Nat
  deriving DecidableEq, Repr

/-- Embeds `add_seg` from `extract_docx_segments`: append a segment starting at
the running offset `cur`, push its text plus a `"\n"` separator onto the
buffer, and advance `cur` past the separator. -/
def addSeg (kind : String) (t : List Char) (st : ExtractState) : ExtractState :=
  { buf := st.buf ++ t ++ ['\n']
    segments := st.segments ++
      [{ seg_id := kind ++ pad6 st.idx
         kind := kind
         text := t
         global_start := st.cur
         global_end := st.cur + t.length }]
    cur := st.cur + t.length + 1
    idx := st.idx + 1 }

/-- Embeds `extract_docx_segments`, as a function of the ordered list of
containers (kind, text) that the docx traversal visits.  Returns the
canonical text together with the segment list.  (The track-changes
warning scan inspects raw XML of the external document object and is
orthogonal to the segment offsets.) -/
def extractDocxSegments (containers : List (String × List Char)) :
    List Char × List Segment :=
  let st := containers.foldl (fun st kt => addSeg kt.1 kt.2 st)
    { buf := [], segments := [], cur := 0, idx := 0 }
  (st.buf, st.segments)

/-- Explicit form of the segments produced from offset `cur` and index
counter `idx` onwards. -/
def buildSegs (cur idx : Nat) : List (String × List Char) → List Segment
  | [] => []
  | (k, t) :: rest =>
      { seg_id := k ++ pad6 idx, kind := k, text := t
        global_start := cur, global_end := cur + t.length } ::
        buildSegs (cur + t.length + 1) (idx + 1) rest

/-- Explicit form of the canonical-text suffix produced from a container
list: each text followed by the one-character separator. -/
def buildBuf (containers : List (String × List Char)) : List Char :=
  (containers.map (fun kt => kt.2 ++ ['\n'])).flatten

theorem extractFold_spec (containers : List (String × List Char)) :
    ∀ st : ExtractState,
      containers.foldl (fun st kt => addSeg kt.1 kt.2 st) st =
        { buf := st.buf ++ buildBuf containers
          segments := st.segments ++ buildSegs st.cur st.idx containers
          cur := st.cur + (buildBuf containers).length
          idx := st.idx + containers.length } := by
  induction containers with
  | nil => intro st; simp [buildBuf, buildSegs]
  | cons kt rest ih =>
      intro st
      rw [List.foldl_cons, ih]
      simp only [buildBuf, buildSegs, addSeg, List.map_cons,
        List.flatten_cons, ExtractState.mk.injEq]
      refine ⟨by simp [List.append_assoc], by simp, ?_,
        by simp [List.length_cons]; omega⟩
      simp [List.length_append]
      omega

theorem buildSegs_ends (cs : List (String × List Char)) :
    ∀ cur idx : Nat, ∀ s ∈ buildSegs cur idx cs,
      s.global_end = s.global_start + s.text.length := by
  induction cs with
  | nil => intro cur idx s hs; simp [buildSegs] at hs
  | cons kt rest ih =>
      intro cur idx s hs
      simp only [buildSegs, List.mem_cons] at hs
      rcases hs with rfl | hs
      · rfl
      · exact ih _ _ s hs

theorem buildBuf_eq_segs (cs : List (String × List Char)) :
    ∀ cur idx : Nat,
      buildBuf cs =
        ((buildSegs cur idx cs).map (fun s => s.text ++ ['\n'])).flatten := by
  induction cs with
  | nil => intro cur idx; simp [buildBuf, buildSegs]
  | cons kt rest ih =>
      intro cur idx
      simp only [buildBuf, buildSegs, List.map_cons, List.flatten_cons]
      rw [← buildBuf, ih (cur + kt.2.length + 1) (idx + 1)]

theorem buildSegs_slice (cs : List (String × List Char)) :
    ∀ (pre : List Char) (idx : Nat),
      ∀ s ∈ buildSegs pre.length idx cs,
        pySlice (pre ++ buildBuf cs) s.global_start s.global_end = s.text := by
  induction cs with
  | nil => intro pre idx s hs; simp [buildSegs] at hs
  | cons kt rest ih =>
      intro pre idx s hs
      simp only [buildSegs, List.mem_cons] at hs
      rcases hs with rfl | hs
      · simp only [pySlice, buildBuf, List.map_cons, List.flatten_cons]
        have he : pre.length + kt.2.length - pre.length = kt.2.length := by omega
        rw [List.append_assoc kt.2, he, List.drop_left]
        exact List.take_left kt.2 _
      · have hlen : (pre ++ (kt.2 ++ ['\n'])).length =
            pre.length + kt.2.length + 1 := by
          simp [List.length_append]; omega
        have := ih (pre ++ (kt.2 ++ ['\n'])) (idx + 1) s (by rw [hlen]; exact hs)
        simpa [buildBuf, List.append_assoc] using this

theorem buildSegs_chain (cs : List (String × List Char)) :
    ∀ cur idx : Nat,
      List.Chain' (fun a b => b.global_start = a.global_end + 1)
        (buildSegs cur idx cs) := by
  induction cs with
  | nil => intro cur idx; simp [buildSegs]
  | cons kt rest ih =>
      intro cur idx
      cases rest with
      | nil => simp [buildSegs]
      | cons kt2 r2 =>
          refine List.Chain'.cons ?_ (ih _ _)
          rfl

/-- C1: the ordered list of segments returned by `extract_docx_segments`
exactly partitions the returned canonical text: every segment satisfies
`global_end = global_start + len(local text)`, each segment is followed by
exactly one one-character separator so that concatenating every segment's
text followed by the separator reconstructs the canonical text exactly,
the sum of segment lengths plus separators equals the length of the
canonical text, each segment's `[global_start, global_end)` range slices
out exactly its local text, and consecutive segments are contiguous with
one separator character between them. -/
theorem extract_docx_segments_partitions (containers : List (String × List Char)) :
    (∀ s ∈ (extractDocxSegments containers).2,
        s.global_end = s.global_start + s.text.length) ∧
    (extractDocxSegments containers).1 =
      ((extractDocxSegments containers).2.map (fun s => s.text ++ ['\n'])).flatten ∧
    ((extractDocxSegments containers).2.map (fun s => s.text.length + 1)).sum =
      ((extractDocxSegments containers).1).length ∧
    (∀ s ∈ (extractDocxSegments containers).2,
        pySlice (extractDocxSegments containers).1 s.global_start s.global_end
          = s.text) ∧
    List.Chain' (fun a b => b.global_start = a.global_end + 1)
      (extractDocxSegments containers).2 := by
  have hfold := extractFold_spec containers
    { buf := [], segments := [], cur := 0, idx := 0 }
  have h1 : (extractDocxSegments containers).1 = buildBuf containers := by
    simp [extractDocxSegments, hfold]
  have h2 : (extractDocxSegments containers).2 = buildSegs 0 0 containers := by
    simp [extractDocxSegments, hfold]
  refine ⟨?_, ?_, ?_, ?_, ?_⟩
  · rw [h2]; exact buildSegs_ends containers 0 0
  · rw [h1, h2]; exact buildBuf_eq_segs containers 0 0
  · rw [h1, h2, buildBuf_eq_segs containers 0 0]
    induction buildSegs 0 0 containers with
    | nil => simp
    | cons s rest ih => simp [ih, List.length_append]; omega
  · rw [h1, h2]
    have := buildSegs_slice containers [] 0
    simpa using this
  · rw [h2]; exact buildSegs_chain containers 0 0

/-- Closed instance of C1 at a concrete two-container document. -/
theorem extract_docx_segments_partitions_inst :
    ({ seg_id := "C000001", kind := "C", text := ['c'],
       global_start := 3, global_end := 4 } : Segment) ∈
      (extractDocxSegments [("P", ['a', 'b']), ("C", ['c'])]).2 ∧
    (4 : Nat) = 3 + (['c'] : List Char).length :=
  ⟨by decide,
   (extract_docx_segments_partitions [("P", ['a', 'b']), ("C", ['c'])]).1
     { seg_id := "C000001", kind := "C", text := ['c'],
       global_start := 3, global_end := 4 } (by decide)⟩

/-! ## External Python library calls

The engine calls `unicodedata.normalize("NFKC", ·)`, `str.format` and the
`re` regex engine (the two date patterns of `date_rules.py` and the two
address patterns of `address_rules.py`).  These are external library
functions, modelled as parameters: every theorem holds for an arbitrary
`PyEnv`. -/

structure PyEnv where
  /-- The call `unicodedata.normalize("NFKC", s)`. -/
  nfkc : List Char → List Char
  /-- The call `fmt.format(n=n)` for a label-format string. -/
  fmtApply : List Char → Nat → List Char
  /-- The call `WAREKI_RE.search(s)`: era-name date search, groups 1 and 2. -/
  warekiSearch : List Char → Option (List Char × List Char)
  /-- The call `YMD_RE.search(s)`: year/month/day search, groups 1 and 2. -/
  ymdSearch : List Char → Option (List Char × List Char)
  /-- The call `ADDRESS_SPLIT_RE.match(s)`: groups `pref` and `rest`. -/
  addressSplitMatch : List Char → Option (List Char × List Char)
  /-- The city-pattern match against `rest` in `mask_address_granular`:
  group 1 of a lazy 1-to-10-character prefix ending in a city suffix. -/
  cityMatch : List Char → Option (List Char)

/-- A concrete `PyEnv` used for closed evaluations. -/
def pyEnvTriv : PyEnv :=
  { nfkc := id
    fmtApply := fun f n => f ++ (toString n).data
    warekiSearch := fun _ => none
    ymdSearch := fun _ => none
    addressSplitMatch := fun _ => none
    cityMatch := fun _ => none }

/-! ## `src/engine/normalize.py` -/

/-- Merge a maximal run of spaces into a single space (the input has
already had every whitespace character replaced by a plain space). -/
def squeezeSpaces : List Char → List Char
  | [] => []
  | [c] => [c]
  | a :: b :: t =>
      if a = ' ' && b = ' ' then squeezeSpaces (b :: t)
      else a :: squeezeSpaces (b :: t)

/-- Embeds `normalize_term`: NFKC-normalize, replace every whitespace run by one
space (`_WS_RE.sub(" ", s)`), then strip. -/
def normalizeTerm (env : PyEnv) (s : List Char) : List Char :=
  pyStrip (squeezeSpaces
    ((env.nfkc s).map (fun c => if pyIsSpace c then ' ' else c)))

/-! ## `src/engine/stable_id.py` -/

structure StableIdState where
  counters : List (String × Nat)
  mapping : List ((String × List Char) × List Char)
  deriving DecidableEq, Repr

/-- The constructor `StableIdState.create()`. -/
def StableIdState.create : StableIdState := { counters := [], mapping := [] }

/-- The fallback label format: an opening bracket, the entity name, an
underscore, then the counter rendered 2-digit by the format spec. -/
def defaultLabelFmt (entity : String) : List Char :=
  ("[" ++ entity ++ "_\x7bn:02d\x7d]").data

/-- Embeds `StableIdState.get_label`: return the previously issued label for
`(entity, normalize_term(original))` when present, else bump the
per-entity counter, format a fresh label and record it. -/
def getLabel (env : PyEnv) (st : StableIdState) (entity : String)
    (original : List Char) (label_format : List (String × List Char)) :
    List Char × StableIdState :=
  let key := (entity, normalizeTerm env original)
  match st.mapping.lookup key with
  | some l => (l, st)
  | none =>
      let n := (st.counters.lookup entity).getD 0 + 1
      let fmt := (label_format.lookup entity).getD (defaultLabelFmt entity)
      let label := env.fmtApply fmt n
      (label, { counters := (entity, n) :: st.counters
                mapping := (key, label) :: st.mapping })

/-! ## `src/engine/text_rules.py` -/

def MONEY_CTX_WORDS : List (List Char) :=
  ["円", "¥", "￥",
   "税込", "税抜", "合計", "総額",
   "対価", "報酬", "単価", "金額",
   "支払", "請求", "入金", "振込",
   "売買代金", "委託料", "利用料", "料金"].map String.data

/-- Embeds `has_money_context` (window defaults to 12): does any money-context
keyword occur in the window around the span? -/
def hasMoneyContext (text : List Char) (start end_ : Nat) : Bool :=
  let window := 12
  let s := start - window
  let e := min text.length (end_ + window)
  let ctx := pySlice text s e
  MONEY_CTX_WORDS.any (fun w => isSubstring w ctx)

/-- Embeds `in_list`: normalized-term membership in the allowlist; an original
that normalizes to the empty string never matches. -/
def inList (env : PyEnv) (term : List Char) (allowlist : List (List Char)) :
    Bool :=
  let t := normalizeTerm env term
  if t.isEmpty then false
  else allowlist.any (fun a => t == normalizeTerm env a)

/-! ## `src/engine/address_rules.py` -/

/-- Embeds `_longest_prefix_match`: return the first entry of `candidates` (in
list order) that is a prefix of `s`.  Note that, despite its name, this
scans in list order and does not maximise the match length. -/
def longestPrefixMatch (s : List Char) (candidates : List (List Char)) :
    Option (List Char) :=
  candidates.find? (fun c => c.isPrefixOf s)

/-- Embeds `mask_address_granular`. -/
def maskAddressGranular (env : PyEnv) (original : List Char)
    (granularity : String) (prefectures municipalities : List (List Char)) :
    List Char :=
  let s := pyStrip original
  if s.isEmpty then s
  else if granularity = "FULL_MASK" then "[ADDRESS]".data
  else
    let pref? := if prefectures.isEmpty then none
                 else longestPrefixMatch s prefectures
    let pr? : Option (List Char × List Char) :=
      match pref? with
      | some pref => some (pref, s.drop pref.length)
      | none => env.addressSplitMatch s
    match pr? with
    | none => "[ADDRESS]".data
    | some (pref, rest) =>
        if granularity = "UNTIL_PREF" then pref
        else
          let muni? := if municipalities.isEmpty then none
                       else longestPrefixMatch (pref ++ rest) municipalities
          let cityFallback :=
            match env.cityMatch rest with
            | some g => pref ++ g
            | none => pref
          match muni? with
          | some muni =>
              if muni ≠ [] && pref.isPrefixOf muni then muni else cityFallback
          | none => cityFallback

/-! ## `src/engine/date_rules.py` -/

/-- Python `int(mo)` for a decimal digit string. -/
def natOfDigits (l : List Char) : Nat :=
  l.foldl (fun n c => n * 10 + (c.toNat - 48)) 0

/-- Embeds `date_granular`. -/
def dateGranular (env : PyEnv) (original : List Char) (mode : String) :
    List Char :=
  let s := pyStrip original
  if mode = "FULL_MASK" then "[DATE]".data
  else
    match env.warekiSearch s with
    | some (g, y) => g ++ y ++ "年".data
    | none =>
        match env.ymdSearch s with
        | some (y, mo) =>
            if mode = "YEAR" then y ++ "年".data
            else if mode = "YM" then
              y ++ "年".data ++ (toString (natOfDigits mo)).data ++ "月".data
            else "[DATE]".data
        | none => "[DATE]".data

/-- C8: the claim says `mask_address_granular` keeps the longest gazetteer
entry that is a prefix of the address, but `_longest_prefix_match` (whose
own name documents the longest-prefix intent) returns the FIRST entry of
the loaded list that is a prefix.  On a gazetteer that lists `京` before
`京都府`, the address `京都府京都市` is truncated to `京` even though the
longer entry `京都府` is also a prefix of the address. -/
theorem mask_address_first_not_longest :
    maskAddressGranular pyEnvTriv "京都府京都市".data "UNTIL_PREF"
        ["京".data, "京都府".data] [] = "京".data ∧
    ("京都府".data).isPrefixOf ("京都府京都市".data) = true ∧
    ("京".data).length < ("京都府".data).length := by
  refine ⟨by decide, by decide, by decide⟩

/-! ## `src/pipelines/pdf_pipeline.py` — quad lookup

Coordinates are modelled as `ℚ`.  The Python `{page: [Rect, ...]}` dict
(insertion-ordered) is modelled as an association list. -/

structure CharInfo where
  page_idx : Nat
  x0 : ℚ
  y0 : ℚ
  x1 : ℚ
  y1 : ℚ
  char : Char
  deriving DecidableEq, Repr

structure PdfRect where
  x0 : ℚ
  y0 : ℚ
  x1 : ℚ
  y1 : ℚ
  deriving DecidableEq, Repr

/-- The update `page_rects.setdefault(page, []).append(rect)`. -/
def addRect (m : List (Nat × List PdfRect)) (p : Nat) (r : PdfRect) :
    List (Nat × List PdfRect) :=
  match m with
  | [] => [(p, [r])]
  | (q, rs) :: t => if q = p then (q, rs ++ [r]) :: t else (q, rs) :: addRect t p r

/-- Python `abs` on a rational value. -/
def ratAbs (q : ℚ) : ℚ := if q < 0 then -q else q

structure QuadState where
  currentPage : Option Nat
  currentY0 : Option ℚ
  currentRect : Option PdfRect
  pageRects : List (Nat × List PdfRect)
  deriving DecidableEq, Repr

/-- One iteration of the character loop of `_get_quads_for_span`:
newline dummies and zero-geometry entries are skipped; a same-page
character within the `SAME_LINE_TOLERANCE = 2.0` vertical tolerance of
the current line extends the current rectangle, anything else flushes it
and starts a new one. -/
def quadStep (st : QuadState) (ci : CharInfo) : QuadState :=
  if ci.char = '\n' ||
      (ci.x0 = 0 && ci.y0 = 0 && ci.x1 = 0 && ci.y1 = 0) then st
  else
    let sameLine : Bool :=
      match st.currentRect, st.currentPage, st.currentY0 with
      | some _, some pg, some y =>
          pg = ci.page_idx && decide (ratAbs (ci.y0 - y) < 2)
      | _, _, _ => false
    if sameLine then
      match st.currentRect with
      | some rect =>
          let merged : PdfRect :=
            { x0 := min rect.x0 ci.x0, y0 := min rect.y0 ci.y0
              x1 := max rect.x1 ci.x1, y1 := max rect.y1 ci.y1 }
          { st with currentRect := some merged }
      | none => st
    else
      let flushed :=
        match st.currentRect, st.currentPage with
        | some rect, some pg => addRect st.pageRects pg rect
        | _, _ => st.pageRects
      { currentPage := some ci.page_idx
        currentY0 := some ci.y0
        currentRect := some { x0 := ci.x0, y0 := ci.y0, x1 := ci.x1, y1 := ci.y1 }
        pageRects := flushed }

/-- Embeds `_get_quads_for_span`. -/
def getQuadsForSpan (chars : List CharInfo) (start end_ : Nat) :
    List (Nat × List PdfRect) :=
  if end_ > chars.length ∨ start ≥ end_ then []
  else
    let st := ((chars.drop start).take (end_ - start)).foldl quadStep
      { currentPage := none, currentY0 := none, currentRect := none
        pageRects := [] }
    match st.currentRect, st.currentPage with
    | some rect, some pg => addRect st.pageRects pg rect
    | _, _ => st.pageRects

/-- The C9 scenario: a zero-geometry newline placeholder, two adjacent
same-line characters at vertical positions y = 100 and y = 101 (both
y = 100±1), one character at y = 200 on the same page, and one further
character outside the hit span. -/
def quadDemoChars : List CharInfo :=
  [ { page_idx := 0, x0 := 0, y0 := 0, x1 := 0, y1 := 0, char := '\n' },
    { page_idx := 0, x0 := 10, y0 := 100, x1 := 20, y1 := 110, char := 'a' },
    { page_idx := 0, x0 := 20, y0 := 101, x1 := 30, y1 := 111, char := 'b' },
    { page_idx := 0, x0 := 10, y0 := 200, x1 := 20, y1 := 210, char := 'c' },
    { page_idx := 0, x0 := 30, y0 := 200, x1 := 40, y1 := 210, char := 'd' } ]

/-- The merged rectangle of the two near-y=100 characters. -/
def quadDemoR1 : PdfRect := { x0 := 10, y0 := 100, x1 := 30, y1 := 111 }

/-- The rectangle of the single y=200 character. -/
def quadDemoR2 : PdfRect := { x0 := 10, y0 := 200, x1 := 20, y1 := 210 }

/-- C9: on the span `[0, 4)` of `quadDemoChars` (the newline placeholder,
the two near-y=100 characters and the y=200 character), `_get_quads_for_span`
returns exactly two rectangles: the two adjacent characters at y=100±1 merge
into one rectangle and the y=200 character forms a separate rectangle. -/
theorem quads_two_lines_two_rects :
    getQuadsForSpan quadDemoChars 0 4 = [(0, [quadDemoR1, quadDemoR2])] ∧
    ((getQuadsForSpan quadDemoChars 0 4).map (fun pr => pr.2.length)).sum
      = 2 := by
  have s1 : quadStep
      { currentPage := none, currentY0 := none, currentRect := none,
        pageRects := [] } (quadDemoChars.get ⟨0, by decide⟩) =
      { currentPage := none, currentY0 := none, currentRect := none,
        pageRects := [] } := by
    norm_num [quadStep, quadDemoChars]
  have s2 : quadStep
      { currentPage := none, currentY0 := none, currentRect := none,
        pageRects := [] } (quadDemoChars.get ⟨1, by decide⟩) =
      { currentPage := some 0, currentY0 := some 100,
        currentRect := some { x0 := 10, y0 := 100, x1 := 20, y1 := 110 },
        pageRects := [] } := by
    norm_num [quadStep, quadDemoChars]
    decide
  have s3 : quadStep
      { currentPage := some 0, currentY0 := some 100,
        currentRect := some { x0 := 10, y0 := 100, x1 := 20, y1 := 110 },
        pageRects := [] } (quadDemoChars.get ⟨2, by decide⟩) =
      { currentPage := some 0, currentY0 := some 100,
        currentRect := some quadDemoR1, pageRects := [] } := by
    norm_num [quadStep, quadDemoChars, ratAbs, quadDemoR1]
    decide
  have s4 : quadStep
      { currentPage := some 0, currentY0 := some 100,
        currentRect := some quadDemoR1, pageRects := [] }
      (quadDemoChars.get ⟨3, by decide⟩) =
      { currentPage := some 0, currentY0 := some 200,
        currentRect := some quadDemoR2, pageRects := [(0, [quadDemoR1])] } := by
    norm_num [quadStep, quadDemoChars, ratAbs, addRect, quadDemoR2]
    decide
  have hl : (quadDemoChars.drop 0).take (4 - 0) =
      [quadDemoChars.get ⟨0, by decide⟩, quadDemoChars.get ⟨1, by decide⟩,
       quadDemoChars.get ⟨2, by decide⟩, quadDemoChars.get ⟨3, by decide⟩] := by
    rfl
  have h : getQuadsForSpan quadDemoChars 0 4 = [(0, [quadDemoR1, quadDemoR2])] := by
    unfold getQuadsForSpan
    rw [if_neg (by decide)]
    rw [hl, List.foldl_cons, s1, List.foldl_cons, s2, List.foldl_cons, s3,
      List.foldl_cons, s4, List.foldl_nil]
    simp [addRect]
  refine ⟨h, by rw [h]; rfl⟩

/-! ## `src/pipelines/docx_rewrite.py` — run-splitting replacement

A formatting run is a pair of an (opaque) formatting value and a text;
`_split_run_at` duplicates the formatting value onto both halves, which
the model renders by reusing the `fmt` field.  Local offsets within a run
are Python ints and may be negative, so slices inside the runs use
Python's signed slice-index semantics. -/

/-- Normalize a Python slice index against a length: negative indices
count from the end (clamped at 0), positive ones clamp at the length. -/
def pyIdx (len : Nat) (i : Int) : Nat :=
  if i < 0 then ((len : Int) + i).toNat else min i.toNat len

/-- Python slice `l[i:j]` for possibly negative `i`, `j`. -/
def pySliceI (l : List Char) (i j : Int) : List Char :=
  (l.take (pyIdx l.length j)).drop (pyIdx l.length i)

structure FmtRun (F : Type) where
  fmt : F
  text : List Char
  deriving DecidableEq, Repr

/-- The run→offset map built by `build_map`: `[start, end)` bounds of each
run in paragraph-local coordinates. -/
def runBounds {F : Type} : List (FmtRun F) → Nat → List (Nat × Nat)
  | [], _ => []
  | r :: t, pos => (pos, pos + r.text.length) :: runBounds t (pos + r.text.length)

/-- One iteration of the replacement loop of `_apply_replacements_to_runs`:
apply the single replacement `[rs, re_) ↦ newText` to the run list.  A
single affected run is edited in place; several affected runs trigger the
run-splitting path: the last affected run is split at the end offset (the
suffix keeps its formatting, the consumed part is cleared), the first
affected run receives its own prefix plus the replacement text, and all
fully-consumed middle runs are cleared. -/
def applyReplacementToRuns {F : Type} (runs : List (FmtRun F))
    (rs re_ : Nat) (newText : List Char) : List (FmtRun F) :=
  let bounds := runBounds runs 0
  let affected := (List.range runs.length).filter (fun i =>
    match bounds.get? i with
    | some se => decide (se.1 < re_) && decide (se.2 > rs)
    | none => false)
  match affected with
  | [] => runs
  | [idx] =>
      match bounds.get? idx with
      | some se =>
          let local_s : Int := (rs : Int) - (se.1 : Int)
          let local_e : Int := (re_ : Int) - (se.1 : Int)
          (runs.enum.map (fun ir =>
            if ir.1 = idx then
              [{ ir.2 with text :=
                  (pySliceI ir.2.text 0 local_s ++ newText ++
                    pySliceI ir.2.text local_e ir.2.text.length) }]
            else [ir.2])).flatten
      | none => runs
  | first_idx :: rest =>
      let last_idx := rest.getLastD first_idx
      let middles := (affected.drop 1).dropLast
      match runs.get? last_idx, bounds.get? first_idx, bounds.get? last_idx with
      | some lastRun, some fse, some lse =>
          let local_s_first : Int := (rs : Int) - (fse.1 : Int)
          let local_e_last : Int := (re_ : Int) - (lse.1 : Int)
          let lastText := lastRun.text
          let suffixText := pySliceI lastText local_e_last lastText.length
          let newLastRuns : List (FmtRun F) :=
            if decide (local_e_last < (lastText.length : Int)) &&
                !suffixText.isEmpty then
              [{ lastRun with text := [] }, { lastRun with text := suffixText }]
            else
              [{ lastRun with text := [] }]
          (runs.enum.map (fun ir =>
            if ir.1 = last_idx then newLastRuns
            else if ir.1 = first_idx then
              [{ ir.2 with text :=
                  (pySliceI ir.2.text 0 local_s_first ++ newText) }]
            else if ir.1 ∈ middles then [{ ir.2 with text := [] }]
            else [ir.2])).flatten
      | _, _, _ => runs

/-- The two formatting values of the C7 scenario. -/
inductive DemoFmt
  | bold
  | italic
  deriving DecidableEq, Repr

/-- C7 fails as stated: on the paragraph `["Hello " bold, "World" italic]`
with replacement span `[3, 9)` and replacement text `"XXXXXX"`, the code
does NOT produce `["Hel" bold, "XXXXXX" bold, "d" italic]` — the span
`[3, 9)` covers `"lo Wor"`, so the untouched suffix of the last run is
`"ld"`, not `"d"`, and the prefix and the replacement are written into a
single first run. -/
theorem run_split_scenario_ne_claimed :
    applyReplacementToRuns
      [ { fmt := DemoFmt.bold, text := "Hello ".data },
        { fmt := DemoFmt.italic, text := "World".data } ] 3 9 "XXXXXX".data ≠
    [ { fmt := DemoFmt.bold, text := "Hel".data },
      { fmt := DemoFmt.bold, text := "XXXXXX".data },
      { fmt := DemoFmt.italic, text := "d".data } ] := by decide

/-- C7 (amended): on the paragraph `["Hello " bold, "World" italic]` with
replacement span `[3, 9)` and replacement text `"XXXXXX"`, the run
splitter produces `["HelXXXXXX" bold, "" italic, "ld" italic]`: the
prefix `"Hel"` and the replacement are merged into the first run and keep
its bold formatting, the consumed part of the last run is cleared in
place, and the untouched suffix `"ld"` of the last run is split into a
new run that keeps the original italic formatting. -/
theorem run_split_scenario :
    applyReplacementToRuns
      [ { fmt := DemoFmt.bold, text := "Hello ".data },
        { fmt := DemoFmt.italic, text := "World".data } ] 3 9 "XXXXXX".data =
    [ { fmt := DemoFmt.bold, text := "HelXXXXXX".data },
      { fmt := DemoFmt.italic, text := [] },
      { fmt := DemoFmt.italic, text := "ld".data } ] := by decide

/-! ## `src/engine/masking_engine.py` — the masking engine core

`mask_text_with_report` takes the raw text, obtains candidate spans from
the analyzer (Presidio / regex — the external CandidateSource, in one of
three strategies that all produce the same shape of candidate dicts with
`source = "analyzer"`), appends the runtime forced masks, resolves
overlaps, filters keep-spans, and then walks the resolved spans building
the masked text, the hit list and the review list.  The external inputs
(analyzer candidates and the computed allowlist of policy terms, party
auto-detection results and once-allowlist overrides) are parameters of
`maskTextCore`, which embeds the engine from `_normalize_forced_masks`
on. -/

/-- An analyzer candidate as repackaged by `mask_text_with_report`
(`source` is always `"analyzer"` for these). -/
structure ACand where
  start : Nat
  end_ : Nat
  entity_type : String
  score : ℚ
  deriving DecidableEq, Repr

/-- A raw forced-mask descriptor from `RuntimeOverrides.forced_masks`. -/
structure ForcedRaw where
  start : Int
  end_ : Int
  entity_type : Option String
  label : Option (List Char)
  reason : Option String
  deriving DecidableEq, Repr

/-- A forced mask after `_normalize_forced_masks`. -/
structure ForcedNorm where
  start : Nat
  end_ : Nat
  entity_type : String
  label : Option (List Char)
  reason : String
  deriving DecidableEq, Repr

/-- A candidate span entering overlap resolution. -/
structure Cand where
  start : Nat
  end_ : Nat
  entity_type : String
  score : ℚ
  source : String
  label : Option (List Char)
  forced_reason : Option String
  deriving DecidableEq, Repr

/-- A validated keep-span override (`0 <= start < end` enforced by
`set_runtime_overrides`). -/
structure KeepSpan where
  start : Nat
  end_ : Nat
  deriving DecidableEq, Repr

/-- Embeds `_normalize_forced_masks`: keep descriptors with `0 <= start < end`,
fill in the `CUSTOM` entity default and the `forced:mask_once` reason
default. -/
def normalizeForcedMasks (fms : List ForcedRaw) : List ForcedNorm :=
  fms.filterMap (fun fm =>
    if 0 ≤ fm.start ∧ fm.start < fm.end_ then
      some { start := fm.start.toNat, end_ := fm.end_.toNat
             entity_type := fm.entity_type.getD "CUSTOM"
             label := fm.label
             reason := fm.reason.getD "forced:mask_once" }
    else none)

/-- The configuration data consumed by the engine core (from
`policy.yaml` via `load_policy`). -/
structure EngineConfig where
  entity_priority : List (String × Int)
  mode : String
  black_min_len : Nat
  label_format : List (String × List Char)
  addr_gran : String
  prefectures : List (List Char)
  municipalities : List (List Char)
  review_threshold : ℚ
  deriving DecidableEq, Repr

/-- The filler character `BLACK_CHAR = "■"`. -/
def BLACK_CHAR : Char := '■'

/-- The candidate list entering overlap resolution: analyzer candidates
(in analyzer order, `source="analyzer"`, no label) followed by the
normalized forced masks (`score=1.0`, `source="forced"`). -/
def assembleCandidates (aCands : List ACand) (forced : List ForcedNorm) :
    List Cand :=
  aCands.map (fun a =>
    { start := a.start, end_ := a.end_, entity_type := a.entity_type
      score := a.score, source := "analyzer", label := none
      forced_reason := none }) ++
  forced.map (fun fm =>
    { start := fm.start, end_ := fm.end_, entity_type := fm.entity_type
      score := 1, source := "forced", label := fm.label
      forced_reason := some fm.reason })

/-- The lookup `self.entity_priority.get(entity, 0)`. -/
def entityPriority (cfg : EngineConfig) (e : String) : Int :=
  (cfg.entity_priority.lookup e).getD 0

/-- Embeds `_cand_key(x) = (src_rank, -priority, -length, -score)`, ordered
lexicographically; a smaller key is a "better" candidate (forced first,
then higher priority, then longer span, then higher score). -/
def candKey (cfg : EngineConfig) (c : Cand) : Nat ×ₗ (Int ×ₗ (Int ×ₗ ℚ)) :=
  toLex ((if c.source = "forced" then 0 else 1 : Nat),
    toLex (-(entityPriority cfg c.entity_type),
      toLex (-((c.end_ : Int) - (c.start : Int)), -c.score)))

/-- The full sort key `(x["start"],) + _cand_key(x)`. -/
def sortKey (cfg : EngineConfig) (c : Cand) :
    Nat ×ₗ (Nat ×ₗ (Int ×ₗ (Int ×ₗ ℚ))) :=
  toLex (c.start, candKey cfg c)

/-- Embeds `sorted(candidates, key=...)`: Python's `sorted` is stable, as is
insertion sort with a non-strict `≤`. -/
def sortCands (cfg : EngineConfig) (cands : List Cand) : List Cand :=
  List.insertionSort (fun a b => sortKey cfg a ≤ sortKey cfg b) cands

/-- The left-to-right overlap sweep (`for c in candidates: ...`), with the
resolved list kept in reverse so its head is the last accepted candidate:
a candidate starting before the last accepted candidate's end is an
overlap, and replaces the last accepted candidate exactly when its
`_cand_key` is strictly smaller. -/
def sweep (cfg : EngineConfig) : List Cand → List Cand → List Cand
  | acc, [] => acc.reverse
  | [], c :: cs => sweep cfg [c] cs
  | prev :: rs, c :: cs =>
      if c.start < prev.end_ then
        if candKey cfg c < candKey cfg prev then sweep cfg (c :: rs) cs
        else sweep cfg (prev :: rs) cs
      else sweep cfg (c :: prev :: rs) cs

/-- Overlap resolution: stable sort by `(start,) + _cand_key`, then the
left-to-right sweep. -/
def resolveOverlaps (cfg : EngineConfig) (cands : List Cand) : List Cand :=
  sweep cfg [] (sortCands cfg cands)

/-- The test `_overlaps(a_s, a_e, b_s, b_e) = a_s < b_e and a_e > b_s`. -/
def overlapsKeep (r : Cand) (ks : KeepSpan) : Bool :=
  decide (r.start < ks.end_) && decide (ks.start < r.end_)

/-- The keep-span filter: drop every resolved span that overlaps a
keep-span override (no-op when there are no keep-spans). -/
def applyKeepSpans (keepSpans : List KeepSpan) (resolved : List Cand) :
    List Cand :=
  if keepSpans.isEmpty then resolved
  else resolved.filter (fun r => !(keepSpans.any (overlapsKeep r)))

/-- The tuple `corp_prefixes`. -/
def corpPrefixTokens : List (List Char) :=
  ["株式会社", "有限会社", "合同会社", "合名会社", "合資会社"].map String.data

/-- The tuple `corp_abbr`. -/
def corpAbbrTokens : List (List Char) := ["(株)", "（株）"].map String.data

/-- The tuple `corp_suffixes = corp_prefixes`. -/
def corpSuffixTokens : List (List Char) := corpPrefixTokens

/-- The boundary characters at which company-name expansion stops. -/
def boundaryChars : List Char :=
  (" \t\r\n" ++
   "、。,.，．:：;；()（）[]［］\x7b\x7d｛｝<>＜＞《》【】「」『』\"\x27“”‘’・/\\|?!？!").data

def isWsFour (c : Char) : Bool :=
  c = ' ' || c = '\t' || c = '\r' || c = '\n'

def isBoundaryChar (c : Char) : Bool := boundaryChars.contains c

/-- Embeds `_expand_company_span`: a detected span that is exactly a corporate
designator (prefix form or abbreviation) is expanded rightward over
whitespace and then over up to 80 non-boundary characters; a span that is
exactly a `corp_suffixes` member would be expanded leftward the same way,
but since `corp_suffixes == corp_prefixes` that branch is shadowed by the
prefix branch and is unreachable. -/
def expandCompanySpan (text : List Char) (s e : Nat) : Nat × Nat :=
  if e ≤ s ∨ text.length < e then (s, e)
  else
    let seg := pySlice text s e
    if corpPrefixTokens.contains seg || corpAbbrTokens.contains seg then
      let rest := text.drop e
      let ws := (rest.takeWhile isWsFour).length
      let rest2 := rest.drop ws
      let consumed := min ((rest2.takeWhile (fun c => !isBoundaryChar c)).length) 80
      (s, e + ws + consumed)
    else if corpSuffixTokens.contains seg then
      let pre := (text.take s).reverse
      let ws := (pre.takeWhile isWsFour).length
      let pre2 := pre.drop ws
      let consumed := min ((pre2.takeWhile (fun c => !isBoundaryChar c)).length) 80
      (s - ws - consumed, e)
    else (s, e)

/-- A reported hit. -/
structure Hit where
  doc_id : String
  entity_type : String
  start : Nat
  end_ : Nat
  score : ℚ
  original : List Char
  replacement : List Char
  reason : String
  source : String
  review_flag : Bool := false
  deriving DecidableEq, Repr

/-- The mutable state of the output loop of `mask_text_with_report`:
accumulated output chunks, hit list, review list, the end offset of the
last emitted hit, and the per-run stable-label state. -/
structure LoopState where
  out : List Char
  hits : List Hit
  review : List Hit
  last : Nat
  sid : StableIdState
  deriving DecidableEq, Repr

/-- The span the output loop uses for a resolved candidate: heuristic
company-span expansion for a non-forced COMPANY candidate, the candidate's
own span otherwise. -/
def spanOf (text : List Char) (r : Cand) : Nat × Nat :=
  if r.entity_type = "COMPANY" ∧ r.source ≠ "forced" then
    expandCompanySpan text r.start r.end_
  else (r.start, r.end_)

/-- The replacement decision of the output loop for one resolved
candidate: returns the replacement text, the audit reason code and the
updated stable-label state. -/
def replReason (env : PyEnv) (cfg : EngineConfig) (text : List Char)
    (allowlist : List (List Char)) (sid : StableIdState) (r : Cand)
    (start end_ : Nat) (original : List Char) :
    List Char × String × StableIdState :=
  let entity := r.entity_type
  if r.source = "forced" then
    let reason := r.forced_reason.getD "forced:mask_once"
    if cfg.mode = "BLACK" then
      (List.replicate (max cfg.black_min_len original.length) BLACK_CHAR,
       reason, sid)
    else
      match r.label with
      | some l =>
          if l.isEmpty then
            let ls := getLabel env sid entity original cfg.label_format
            (ls.1, reason, ls.2)
          else (l, reason, sid)
      | none =>
          let ls := getLabel env sid entity original cfg.label_format
          (ls.1, reason, ls.2)
  else
    if entity = "PARTIES" then (original, "keep:parties", sid)
    else if inList env original allowlist then
      (original, "keep:allowlist", sid)
    else if entity = "MONEY" ∧ hasMoneyContext text start end_ = false then
      (original, "keep:money_no_context", sid)
    else if cfg.mode = "BLACK" then
      (List.replicate (max cfg.black_min_len original.length) BLACK_CHAR,
       "mask:black", sid)
    else if entity = "DATE" then
      (dateGranular env original "YEAR", "mask:date_granular", sid)
    else if entity = "ADDRESS" then
      (maskAddressGranular env original cfg.addr_gran cfg.prefectures
        cfg.municipalities, "mask:address_granular", sid)
    else
      let ls := getLabel env sid entity original cfg.label_format
      (ls.1, "mask:stable_id", ls.2)

/-- One iteration of `for r in resolved:` — heuristic company-span
expansion, replacement decision, output-chunk emission, hit record and
review flagging. -/
def maskStep (env : PyEnv) (cfg : EngineConfig) (text : List Char)
    (allowlist : List (List Char)) (doc_id : String)
    (st : LoopState) (r : Cand) : LoopState :=
  let se := spanOf text r
  let start := se.1
  let end_ := se.2
  let entity := r.entity_type
  let score := r.score
  let original := pySlice text start end_
  let rrs := replReason env cfg text allowlist st.sid r start end_ original
  let repl := rrs.1
  let reason := rrs.2.1
  let hit : Hit :=
    { doc_id := doc_id, entity_type := entity, start := start, end_ := end_
      score := score, original := original, replacement := repl
      reason := reason, source := r.source, review_flag := false }
  let reviewAdd : List Hit :=
    if (score ≠ 0 ∧ score < cfg.review_threshold) ∨
        reason = "keep:money_no_context" ∨ r.source = "forced" then
      [{ hit with review_flag := true }]
    else []
  { out := st.out ++ pySlice text st.last start ++ repl
    hits := st.hits ++ [hit]
    review := st.review ++ reviewAdd
    last := end_
    sid := rrs.2.2 }

def maskLoop (env : PyEnv) (cfg : EngineConfig) (text : List Char)
    (allowlist : List (List Char)) (doc_id : String)
    (st : LoopState) (rs : List Cand) : LoopState :=
  rs.foldl (maskStep env cfg text allowlist doc_id) st

/-- The resolved span list that the output loop walks: analyzer
candidates plus normalized forced masks, overlap-resolved, then
keep-span-filtered. -/
def resolvedCandidates (cfg : EngineConfig) (aCands : List ACand)
    (forcedRaw : List ForcedRaw) (keepSpans : List KeepSpan) : List Cand :=
  applyKeepSpans keepSpans
    (resolveOverlaps cfg (assembleCandidates aCands (normalizeForcedMasks forcedRaw)))

structure MaskResult where
  masked : List Char
  hits : List Hit
  review : List Hit
  deriving DecidableEq, Repr

/-- Embeds `mask_text_with_report` from `_normalize_forced_masks` on: the
analyzer candidates and the computed allowlist are inputs; a fresh
`StableIdState` is created at the start of the run; the masked text is
the accumulated output plus the tail of the input after the last hit. -/
def maskTextCore (env : PyEnv) (cfg : EngineConfig) (text : List Char)
    (doc_id : String) (aCands : List ACand) (forcedRaw : List ForcedRaw)
    (keepSpans : List KeepSpan) (allowlist : List (List Char)) : MaskResult :=
  let resolved := resolvedCandidates cfg aCands forcedRaw keepSpans
  let st := maskLoop env cfg text allowlist doc_id
    { out := [], hits := [], review := [], last := 0
      sid := StableIdState.create } resolved
  { masked := st.out ++ text.drop st.last, hits := st.hits, review := st.review }

/-! ## Properties of overlap resolution -/

/-- Two candidate spans overlap (nonempty intersection of the half-open
ranges). -/
def overlapSpans (a b : Cand) : Prop := a.start < b.end_ ∧ b.start < a.end_

instance (a b : Cand) : Decidable (overlapSpans a b) :=
  inferInstanceAs (Decidable (a.start < b.end_ ∧ b.start < a.end_))

theorem sortCands_sorted (cfg : EngineConfig) (cands : List Cand) :
    (sortCands cfg cands).Pairwise
      (fun a b => sortKey cfg a ≤ sortKey cfg b) := by
  letI : IsTotal Cand (fun a b => sortKey cfg a ≤ sortKey cfg b) :=
    ⟨fun a b => le_total _ _⟩
  letI : IsTrans Cand (fun a b => sortKey cfg a ≤ sortKey cfg b) :=
    ⟨fun _ _ _ h1 h2 => le_trans h1 h2⟩
  exact List.sorted_insertionSort _ cands

theorem sortKey_le_start (cfg : EngineConfig) {a b : Cand}
    (h : sortKey cfg a ≤ sortKey cfg b) : a.start ≤ b.start := by
  simp only [sortKey] at h
  rcases (Prod.Lex.le_iff _ _).1 h with h1 | ⟨h1, _⟩ <;> omega

theorem sweep_pairwise (cfg : EngineConfig) :
    ∀ (rest acc : List Cand),
      rest.Pairwise (fun a b => a.start ≤ b.start) →
      acc.Pairwise (fun a b => b.end_ ≤ a.start ∧ b.start ≤ a.start) →
      (∀ c ∈ rest, ∀ p, acc.head? = some p → p.start ≤ c.start) →
      (sweep cfg acc rest).Pairwise
        (fun a b => a.end_ ≤ b.start ∧ a.start ≤ b.start) := by
  intro rest
  induction rest with
  | nil =>
      intro acc _ hacc _
      rw [show sweep cfg acc [] = acc.reverse from by cases acc <;> rfl,
        List.pairwise_reverse]
      exact hacc
  | cons c cs ih =>
      intro acc hrest hacc hcross
      have hc_cs : ∀ x ∈ cs, c.start ≤ x.start :=
        fun x hx => List.rel_of_pairwise_cons hrest hx
      have hcs : cs.Pairwise (fun a b => a.start ≤ b.start) := hrest.of_cons
      match acc with
      | [] =>
          rw [show sweep cfg [] (c :: cs) = sweep cfg [c] cs from rfl]
          exact ih [c] hcs (List.pairwise_singleton _ _)
            (by intro x hx p hp
                simp only [List.head?_cons, Option.some.injEq] at hp
                subst hp; exact hc_cs x hx)
      | prev :: rs =>
          have hpc : prev.start ≤ c.start :=
            hcross c (List.mem_cons_self c cs) prev rfl
          have hprev_rs : ∀ r ∈ rs, r.end_ ≤ prev.start ∧ r.start ≤ prev.start :=
            fun r hr => List.rel_of_pairwise_cons hacc hr
          have hrs : rs.Pairwise (fun a b => b.end_ ≤ a.start ∧ b.start ≤ a.start) :=
            hacc.of_cons
          rw [show sweep cfg (prev :: rs) (c :: cs) =
              if c.start < prev.end_ then
                if candKey cfg c < candKey cfg prev then sweep cfg (c :: rs) cs
                else sweep cfg (prev :: rs) cs
              else sweep cfg (c :: prev :: rs) cs from rfl]
          by_cases h1 : c.start < prev.end_
          · rw [if_pos h1]
            by_cases h2 : candKey cfg c < candKey cfg prev
            · rw [if_pos h2]
              refine ih (c :: rs) hcs ?_ ?_
              · refine List.Pairwise.cons ?_ hrs
                intro r hr
                have := hprev_rs r hr
                omega
              · intro x hx p hp
                simp only [List.head?_cons, Option.some.injEq] at hp
                subst hp; exact hc_cs x hx
            · rw [if_neg h2]
              refine ih (prev :: rs) hcs hacc ?_
              intro x hx p hp
              simp only [List.head?_cons, Option.some.injEq] at hp
              subst hp; exact le_trans hpc (hc_cs x hx)
          · rw [if_neg h1]
            refine ih (c :: prev :: rs) hcs ?_ ?_
            · refine List.Pairwise.cons ?_ hacc
              intro r hr
              rcases List.mem_cons.1 hr with rfl | hr
              · omega
              · have := hprev_rs r hr
                omega
            · intro x hx p hp
              simp only [List.head?_cons, Option.some.injEq] at hp
              subst hp; exact hc_cs x hx

theorem resolveOverlaps_pairwise (cfg : EngineConfig) (cands : List Cand) :
    (resolveOverlaps cfg cands).Pairwise
      (fun a b => a.end_ ≤ b.start ∧ a.start ≤ b.start) := by
  refine sweep_pairwise cfg (sortCands cfg cands) [] ?_ List.Pairwise.nil ?_
  · exact (sortCands_sorted cfg cands).imp (fun h => sortKey_le_start cfg h)
  · intro c _ p hp
    simp at hp

theorem resolvedCandidates_pairwise (cfg : EngineConfig) (aCands : List ACand)
    (forcedRaw : List ForcedRaw) (keepSpans : List KeepSpan) :
    (resolvedCandidates cfg aCands forcedRaw keepSpans).Pairwise
      (fun a b => a.end_ ≤ b.start ∧ a.start ≤ b.start) := by
  unfold resolvedCandidates applyKeepSpans
  split
  · exact resolveOverlaps_pairwise cfg _
  · exact (resolveOverlaps_pairwise cfg _).filter _

/-- C2 (amended): the resolved set is pairwise non-overlapping, so at
most one member of every overlapping candidate pair is retained; and when
overlap resolution runs on exactly two overlapping candidates of distinct
tie-break rank, exactly the higher-ranking one (smaller `_cand_key`:
forced before analyzer, then higher configured priority, then longer
span, then higher score) is retained.  With three or more candidates both
members of an overlapping pair can be discarded
(`overlap_pair_both_dropped`), which refutes the claim's "exactly one"
for the general case. -/
theorem overlap_resolution_tiebreak (cfg : EngineConfig) :
    (∀ (aCands : List ACand) (forcedRaw : List ForcedRaw)
        (keepSpans : List KeepSpan),
      (resolvedCandidates cfg aCands forcedRaw keepSpans).Pairwise
        (fun a b => ¬ overlapSpans a b)) ∧
    (∀ a b : Cand, overlapSpans a b → candKey cfg a ≠ candKey cfg b →
      resolveOverlaps cfg [a, b] =
        [if candKey cfg a < candKey cfg b then a else b]) := by
  constructor
  · intro aCands forcedRaw keepSpans
    refine (resolvedCandidates_pairwise cfg aCands forcedRaw keepSpans).imp ?_
    intro a b hab hov
    rcases hab with ⟨h1, _⟩
    rcases hov with ⟨_, h2⟩
    omega
  · intro a b hov hne
    have hresolve : ∀ x y : Cand, y.start < x.end_ →
        sweep cfg [] [x, y] =
          [if candKey cfg y < candKey cfg x then y else x] := by
      intro x y hy
      rw [show sweep cfg [] [x, y] = sweep cfg [x] [y] from rfl]
      rw [show sweep cfg [x] [y] =
          if y.start < x.end_ then
            if candKey cfg y < candKey cfg x then sweep cfg [y] []
            else sweep cfg [x] []
          else sweep cfg [y, x] [] from rfl]
      rw [if_pos hy]
      by_cases h2 : candKey cfg y < candKey cfg x
      · rw [if_pos h2, if_pos h2]; rfl
      · rw [if_neg h2, if_neg h2]; rfl
    have hsorted : sortCands cfg [a, b] =
        if sortKey cfg a ≤ sortKey cfg b then [a, b] else [b, a] := by
      simp only [sortCands, List.insertionSort, List.orderedInsert]
    rcases lt_or_gt_of_ne hne with hlt | hgt
    · rw [if_pos hlt]
      unfold resolveOverlaps
      rw [hsorted]
      by_cases hs : sortKey cfg a ≤ sortKey cfg b
      · rw [if_pos hs, hresolve a b hov.2, if_neg (asymm hlt)]
      · rw [if_neg hs, hresolve b a hov.1, if_pos hlt]
    · rw [if_neg (asymm hgt)]
      unfold resolveOverlaps
      rw [hsorted]
      by_cases hs : sortKey cfg a ≤ sortKey cfg b
      · rw [if_pos hs, hresolve a b hov.2, if_pos hgt]
      · rw [if_neg hs, hresolve b a hov.1, if_neg (asymm hgt)]

/-- Configuration for the concrete overlap-resolution examples: entity
`A` has priority 10, `B` priority 1, `C` priority 2. -/
def c2cfg : EngineConfig :=
  { entity_priority := [("A", 10), ("B", 1), ("C", 2)], mode := "LABEL"
    black_min_len := 3, label_format := [], addr_gran := "UNTIL_CITY"
    prefectures := [], municipalities := [], review_threshold := 1 }

def c2aA : ACand := { start := 0, end_ := 10, entity_type := "A", score := 1 }

def c2aB : ACand := { start := 2, end_ := 4, entity_type := "B", score := 1 }

def c2aC : ACand := { start := 3, end_ := 5, entity_type := "C", score := 1 }

def c2candA : Cand :=
  { start := 0, end_ := 10, entity_type := "A", score := 1
    source := "analyzer", label := none, forced_reason := none }

def c2candB : Cand :=
  { start := 2, end_ := 4, entity_type := "B", score := 1
    source := "analyzer", label := none, forced_reason := none }

def c2candC : Cand :=
  { start := 3, end_ := 5, entity_type := "C", score := 1
    source := "analyzer", label := none, forced_reason := none }

/-- C2 fails as stated: with candidates `A = [0,10)` (priority 10),
`B = [2,4)` (priority 1) and `C = [3,5)` (priority 2), the high-priority
span `A` suppresses both `B` and `C`, so the overlapping pair `(B, C)`
has NO member retained in the resolved set — not "exactly one". -/
theorem overlap_pair_both_dropped :
    resolvedCandidates c2cfg [c2aA, c2aB, c2aC] [] [] = [c2candA] ∧
    overlapSpans c2candB c2candC ∧
    c2candB ∉ resolvedCandidates c2cfg [c2aA, c2aB, c2aC] [] [] ∧
    c2candC ∉ resolvedCandidates c2cfg [c2aA, c2aB, c2aC] [] [] := by
  refine ⟨by decide, by decide, by decide, by decide⟩

/-- Closed instance of the amended C2: `B = [2,4)` (priority 1) and
`C = [3,5)` (priority 2) overlap, rank differently, and resolution keeps
exactly the higher-priority `C`. -/
theorem overlap_resolution_tiebreak_inst :
    overlapSpans c2candB c2candC ∧
    candKey c2cfg c2candB ≠ candKey c2cfg c2candC ∧
    resolveOverlaps c2cfg [c2candB, c2candC] = [c2candC] :=
  ⟨by decide, by decide, by
    have h := (overlap_resolution_tiebreak c2cfg).2 c2candB c2candC
      (by decide) (by decide)
    rwa [if_neg (by decide)] at h⟩

/-! ## Properties of the hit list -/

/-- Company-span expansion never moves the start of a span: the leftward
(`corp_suffixes`) branch is dead code because `corp_suffixes` equals
`corp_prefixes`, whose branch is checked first. -/
theorem expandCompanySpan_fst (text : List Char) (s e : Nat) :
    (expandCompanySpan text s e).1 = s := by
  unfold expandCompanySpan
  split
  · rfl
  · dsimp only
    split
    · rfl
    · split
      · rename_i hnot hsuf
        exfalso
        rw [show corpSuffixTokens = corpPrefixTokens from rfl] at hsuf
        exact hnot (by simp; exact Or.inl (by simpa using hsuf))
      · rfl

theorem spanOf_fst (text : List Char) (r : Cand) : (spanOf text r).1 = r.start := by
  unfold spanOf
  split
  · exact expandCompanySpan_fst text r.start r.end_
  · rfl

theorem maskLoop_hits_spans (env : PyEnv) (cfg : EngineConfig)
    (text : List Char) (allowlist : List (List Char)) (doc_id : String) :
    ∀ (rs : List Cand) (st : LoopState),
      (maskLoop env cfg text allowlist doc_id st rs).hits.map
          (fun h => (h.start, h.end_)) =
        st.hits.map (fun h => (h.start, h.end_)) ++ rs.map (spanOf text) := by
  intro rs
  induction rs with
  | nil => intro st; simp [maskLoop]
  | cons r rest ih =>
      intro st
      rw [show maskLoop env cfg text allowlist doc_id st (r :: rest) =
          maskLoop env cfg text allowlist doc_id
            (maskStep env cfg text allowlist doc_id st r) rest from rfl]
      rw [ih]
      simp [maskStep]

/-- C3 (amended): the reported hit list is always sorted ascending by
start offset (company-span expansion never moves a start); it is pairwise
non-overlapping whenever heuristic company-span expansion leaves every
resolved span unchanged — in particular whenever no resolved analyzer
COMPANY candidate covers exactly a corporate-designator token.  Expansion
can extend a COMPANY hit rightward into the following hit's span, which
breaks non-overlap (`company_expansion_overlaps_hits`). -/
theorem hits_sorted_and_nonoverlap (env : PyEnv) (cfg : EngineConfig)
    (text : List Char) (doc_id : String) (aCands : List ACand)
    (forcedRaw : List ForcedRaw) (keepSpans : List KeepSpan)
    (allowlist : List (List Char)) :
    ((maskTextCore env cfg text doc_id aCands forcedRaw keepSpans
        allowlist).hits.Pairwise (fun a b => a.start ≤ b.start)) ∧
    ((∀ r ∈ resolvedCandidates cfg aCands forcedRaw keepSpans,
        spanOf text r = (r.start, r.end_)) →
      (maskTextCore env cfg text doc_id aCands forcedRaw keepSpans
        allowlist).hits.Pairwise (fun a b => a.end_ ≤ b.start)) := by
  have hmap : (maskTextCore env cfg text doc_id aCands forcedRaw keepSpans
      allowlist).hits.map (fun h => (h.start, h.end_)) =
      (resolvedCandidates cfg aCands forcedRaw keepSpans).map (spanOf text) := by
    unfold maskTextCore
    simpa using maskLoop_hits_spans env cfg text allowlist doc_id
      (resolvedCandidates cfg aCands forcedRaw keepSpans)
      { out := [], hits := [], review := [], last := 0
        sid := StableIdState.create }
  constructor
  · have h1 : ((maskTextCore env cfg text doc_id aCands forcedRaw keepSpans
        allowlist).hits.map (fun h => (h.start, h.end_))).Pairwise
        (fun p q => p.1 ≤ q.1) := by
      rw [hmap, List.pairwise_map]
      refine (resolvedCandidates_pairwise cfg aCands forcedRaw keepSpans).imp ?_
      intro a b hab
      rw [spanOf_fst, spanOf_fst]
      exact hab.2
    have h2 := List.pairwise_map.1 h1
    simpa using h2
  · intro hid
    have hmap2 : (maskTextCore env cfg text doc_id aCands forcedRaw keepSpans
        allowlist).hits.map (fun h => (h.start, h.end_)) =
        (resolvedCandidates cfg aCands forcedRaw keepSpans).map
          (fun r => (r.start, r.end_)) := by
      rw [hmap]
      exact List.map_congr_left hid
    have h1 : ((maskTextCore env cfg text doc_id aCands forcedRaw keepSpans
        allowlist).hits.map (fun h => (h.start, h.end_))).Pairwise
        (fun p q => p.2 ≤ q.1) := by
      rw [hmap2, List.pairwise_map]
      refine (resolvedCandidates_pairwise cfg aCands forcedRaw keepSpans).imp ?_
      intro a b hab
      exact hab.1
    have h2 := List.pairwise_map.1 h1
    simpa using h2

/-- Closed instance of the amended C3: two non-COMPANY candidates, no
expansion, hits sorted and non-overlapping. -/
theorem hits_sorted_and_nonoverlap_inst :
    (∀ r ∈ resolvedCandidates c2cfg [c2aB, c2aC] [] [],
        spanOf "abcdef".data r = (r.start, r.end_)) ∧
    (maskTextCore pyEnvTriv c2cfg "abcdef".data "doc" [c2aB, c2aC] [] []
      []).hits.Pairwise (fun a b => a.end_ ≤ b.start) :=
  ⟨by decide,
   (hits_sorted_and_nonoverlap pyEnvTriv c2cfg "abcdef".data "doc"
     [c2aB, c2aC] [] [] []).2 (by decide)⟩

/-- C3 fails as stated: on the text `株式会社AB` with analyzer candidates
COMPANY `[0,4)` (exactly the corporate designator) and PERSON `[4,6)`,
resolution keeps both (they do not overlap), but company-span expansion
then extends the COMPANY hit to `[0,6)`, so the reported hits `[0,6)` and
`[4,6)` overlap. -/
theorem company_expansion_overlaps_hits :
    (maskTextCore pyEnvTriv c2cfg "株式会社AB".data "doc"
      [{ start := 0, end_ := 4, entity_type := "COMPANY", score := 1 },
       { start := 4, end_ := 6, entity_type := "PERSON", score := 1 }]
      [] [] []).hits.map (fun h => (h.start, h.end_)) = [(0, 6), (4, 6)] ∧
    ¬ (maskTextCore pyEnvTriv c2cfg "株式会社AB".data "doc"
      [{ start := 0, end_ := 4, entity_type := "COMPANY", score := 1 },
       { start := 4, end_ := 6, entity_type := "PERSON", score := 1 }]
      [] [] []).hits.Pairwise (fun a b => a.end_ ≤ b.start) := by
  refine ⟨by decide, by decide⟩

/-! ## BLACK output mode -/

theorem replReason_black (env : PyEnv) (cfg : EngineConfig) (text : List Char)
    (allowlist : List (List Char)) (hmode : cfg.mode = "BLACK")
    (sid : StableIdState) (r : Cand) (start end_ : Nat) (original : List Char) :
    (r.source = "forced" →
      (replReason env cfg text allowlist sid r start end_ original).1 =
        List.replicate (max cfg.black_min_len original.length) BLACK_CHAR) ∧
    ((replReason env cfg text allowlist sid r start end_ original).2.1 =
        "mask:black" →
      (replReason env cfg text allowlist sid r start end_ original).1 =
        List.replicate (max cfg.black_min_len original.length) BLACK_CHAR) := by
  unfold replReason
  by_cases hf : r.source = "forced"
  · rw [if_pos hf]
    dsimp only
    rw [if_pos hmode]
    exact ⟨fun _ => rfl, fun _ => rfl⟩
  · rw [if_neg hf]
    dsimp only
    split_ifs with h1 h2 h3
    · exact ⟨fun hc => absurd hc hf, fun hc => by simp at hc⟩
    · exact ⟨fun hc => absurd hc hf, fun hc => by simp at hc⟩
    · exact ⟨fun hc => absurd hc hf, fun hc => by simp at hc⟩
    · exact ⟨fun _ => rfl, fun _ => rfl⟩

theorem maskLoop_black (env : PyEnv) (cfg : EngineConfig) (text : List Char)
    (allowlist : List (List Char)) (doc_id : String)
    (hmode : cfg.mode = "BLACK") :
    ∀ (rs : List Cand) (st : LoopState),
      (∀ h ∈ st.hits, (h.source = "forced" ∨ h.reason = "mask:black") →
        h.replacement =
          List.replicate (max cfg.black_min_len h.original.length) BLACK_CHAR) →
      ∀ h ∈ (maskLoop env cfg text allowlist doc_id st rs).hits,
        (h.source = "forced" ∨ h.reason = "mask:black") →
        h.replacement =
          List.replicate (max cfg.black_min_len h.original.length) BLACK_CHAR := by
  intro rs
  induction rs with
  | nil => intro st hst; exact hst
  | cons r rest ih =>
      intro st hst
      rw [show maskLoop env cfg text allowlist doc_id st (r :: rest) =
          maskLoop env cfg text allowlist doc_id
            (maskStep env cfg text allowlist doc_id st r) rest from rfl]
      apply ih
      intro h hh
      simp only [maskStep, List.mem_append, List.mem_singleton] at hh
      rcases hh with hh | rfl
      · exact hst h hh
      · intro hsrc
        have hb := replReason_black env cfg text allowlist hmode st.sid r
          (spanOf text r).1 (spanOf text r).2
          (pySlice text (spanOf text r).1 (spanOf text r).2)
        rcases hsrc with hsrc | hsrc
        · exact hb.1 hsrc
        · exact hb.2 hsrc

/-- C4: in BLACK output mode, every hit that is actually masked (a forced
hit, or one whose reason is the blackout reason `mask:black` rather than
one of the pass-through `keep:*` reasons) has as replacement exactly
`max(black_min_len, len(original))` copies of the filler character `■`. -/
theorem black_mode_blackout (env : PyEnv) (cfg : EngineConfig)
    (text : List Char) (doc_id : String) (aCands : List ACand)
    (forcedRaw : List ForcedRaw) (keepSpans : List KeepSpan)
    (allowlist : List (List Char)) (hmode : cfg.mode = "BLACK") :
    ∀ h ∈ (maskTextCore env cfg text doc_id aCands forcedRaw keepSpans
        allowlist).hits,
      (h.source = "forced" ∨ h.reason = "mask:black") →
      h.replacement =
        List.replicate (max cfg.black_min_len h.original.length) BLACK_CHAR := by
  unfold maskTextCore
  exact maskLoop_black env cfg text allowlist doc_id hmode _ _
    (by intro h hh; simp at hh)

/-- A BLACK-mode configuration for the closed instances. -/
def c4cfg : EngineConfig :=
  { entity_priority := [], mode := "BLACK", black_min_len := 3
    label_format := [], addr_gran := "UNTIL_CITY", prefectures := []
    municipalities := [], review_threshold := 1 }

/-- The hit produced in the closed instance of C4. -/
def c4hit : Hit :=
  { doc_id := "doc", entity_type := "PERSON", start := 0, end_ := 2
    score := 1, original := "ab".data
    replacement := List.replicate 3 BLACK_CHAR, reason := "mask:black"
    source := "analyzer", review_flag := false }

/-- Closed instance of C4: a two-character PERSON hit under
`black_min_len = 3` is replaced by exactly three `■` characters. -/
theorem black_mode_blackout_inst :
    c4hit ∈ (maskTextCore pyEnvTriv c4cfg "abcdef".data "doc"
      [{ start := 0, end_ := 2, entity_type := "PERSON", score := 1 }]
      [] [] []).hits ∧
    c4hit.replacement =
      List.replicate (max c4cfg.black_min_len c4hit.original.length)
        BLACK_CHAR :=
  ⟨by decide,
   black_mode_blackout pyEnvTriv c4cfg "abcdef".data "doc"
     [{ start := 0, end_ := 2, entity_type := "PERSON", score := 1 }]
     [] [] [] rfl c4hit (by decide) (by decide)⟩

/-! ## Stable-label determinism -/

/-- A call to `StableIdState.get_label` within one run: entity type,
original text, label-format table. -/
def runCalls (env : PyEnv) (st : StableIdState)
    (calls : List (String × List Char × List (String × List Char))) :
    StableIdState :=
  calls.foldl (fun s c => (getLabel env s c.1 c.2.1 c.2.2).2) st

theorem getLabel_lookup_self (env : PyEnv) (st : StableIdState) (e : String)
    (o : List Char) (lf : List (String × List Char)) :
    ((getLabel env st e o lf).2).mapping.lookup (e, normalizeTerm env o) =
      some (getLabel env st e o lf).1 := by
  unfold getLabel
  cases hm : st.mapping.lookup (e, normalizeTerm env o) with
  | some l => simp [hm]
  | none => simp [hm, List.lookup]

theorem getLabel_preserves (env : PyEnv) (st : StableIdState) (e : String)
    (o : List Char) (lf : List (String × List Char))
    {k : String × List Char} {v : List Char}
    (h : st.mapping.lookup k = some v) :
    ((getLabel env st e o lf).2).mapping.lookup k = some v := by
  unfold getLabel
  cases hm : st.mapping.lookup (e, normalizeTerm env o) with
  | some l => simpa [hm] using h
  | none =>
      have hk : k ≠ (e, normalizeTerm env o) := by
        intro hkk
        rw [hkk, hm] at h
        cases h
      have hbeq : (k == (e, normalizeTerm env o)) = false :=
        beq_eq_false_iff_ne.mpr hk
      simp [hm, List.lookup, hbeq]
      exact h

theorem runCalls_preserves (env : PyEnv)
    (calls : List (String × List Char × List (String × List Char))) :
    ∀ (st : StableIdState) {k : String × List Char} {v : List Char},
      st.mapping.lookup k = some v →
      (runCalls env st calls).mapping.lookup k = some v := by
  induction calls with
  | nil => intro st k v h; exact h
  | cons c rest ih =>
      intro st k v h
      exact ih _ (getLabel_preserves env st c.1 c.2.1 c.2.2 h)

theorem getLabel_of_lookup (env : PyEnv) (st : StableIdState) (e : String)
    (o : List Char) (lf : List (String × List Char)) {v : List Char}
    (h : st.mapping.lookup (e, normalizeTerm env o) = some v) :
    (getLabel env st e o lf).1 = v := by
  unfold getLabel
  simp [h]

/-- C5: within one run (one `StableIdState`, created fresh as
`StableIdState.create` at the start of each `mask_text_with_report` run,
which is where `maskTextCore` starts its fold), `get_label` is
deterministic on the pair (entity type, normalized original text): after
a label is issued for `(e, o1)`, any later call in the same run with the
same entity type and an original that normalizes to the same term —
regardless of the label-format table passed and of arbitrary other
`get_label` calls in between — returns the identical label.  Because the
state is re-created per run, no label carries over between runs: the run
function has no state input at all. -/
theorem stable_label_deterministic (env : PyEnv)
    (pre mid : List (String × List Char × List (String × List Char)))
    (e : String) (o1 o2 : List Char) (f1 f2 : List (String × List Char))
    (hnorm : normalizeTerm env o1 = normalizeTerm env o2) :
    (getLabel env
      (runCalls env
        (getLabel env (runCalls env StableIdState.create pre) e o1 f1).2 mid)
      e o2 f2).1 =
    (getLabel env (runCalls env StableIdState.create pre) e o1 f1).1 := by
  have h1 := getLabel_lookup_self env
    (runCalls env StableIdState.create pre) e o1 f1
  have h2 := runCalls_preserves env mid
    (getLabel env (runCalls env StableIdState.create pre) e o1 f1).2 h1
  rw [hnorm] at h2
  exact getLabel_of_lookup env _ e o2 f2 h2

/-- Closed instance of C5: the same (entity, original) pair queried
again, after an unrelated call in between, receives the same label. -/
theorem stable_label_deterministic_inst :
    normalizeTerm pyEnvTriv "ab".data = normalizeTerm pyEnvTriv "ab".data ∧
    (getLabel pyEnvTriv
      (runCalls pyEnvTriv
        (getLabel pyEnvTriv (runCalls pyEnvTriv StableIdState.create [])
          "PERSON" "ab".data []).2
        [("PERSON", "xy".data, [])])
      "PERSON" "ab".data []).1 =
    (getLabel pyEnvTriv (runCalls pyEnvTriv StableIdState.create [])
      "PERSON" "ab".data []).1 :=
  ⟨rfl,
   stable_label_deterministic pyEnvTriv [] [("PERSON", "xy".data, [])]
     "PERSON" "ab".data "ab".data [] [] rfl⟩

/-! ## Review flagging -/

theorem maskLoop_review_flag (env : PyEnv) (cfg : EngineConfig)
    (text : List Char) (allowlist : List (List Char)) (doc_id : String) :
    ∀ (rs : List Cand) (st : LoopState),
      (∀ h ∈ st.hits,
        ((h.score ≠ 0 ∧ h.score < cfg.review_threshold) ∨
          h.reason = "keep:money_no_context" ∨ h.source = "forced") →
        { h with review_flag := true } ∈ st.review) →
      ∀ h ∈ (maskLoop env cfg text allowlist doc_id st rs).hits,
        ((h.score ≠ 0 ∧ h.score < cfg.review_threshold) ∨
          h.reason = "keep:money_no_context" ∨ h.source = "forced") →
        { h with review_flag := true } ∈
          (maskLoop env cfg text allowlist doc_id st rs).review := by
  intro rs
  induction rs with
  | nil => intro st hst; exact hst
  | cons r rest ih =>
      intro st hst
      rw [show maskLoop env cfg text allowlist doc_id st (r :: rest) =
          maskLoop env cfg text allowlist doc_id
            (maskStep env cfg text allowlist doc_id st r) rest from rfl]
      apply ih
      intro h hh hp
      simp only [maskStep, List.mem_append, List.mem_singleton] at hh ⊢
      rcases hh with hh | rfl
      · exact Or.inl (hst h hh hp)
      · right
        dsimp only at hp
        rw [if_pos hp]
        exact List.mem_singleton.mpr rfl

/-- C6 (amended): every hit whose score is nonzero and strictly below the
configured review threshold is placed (with `review_flag`) on the review
list, as is every forced hit and every hit whose reason is the
money-no-context pass-through.  A hit whose score is exactly 0 is NOT
flagged by the score test (`score and score < review_th` is falsy for a
zero score): see `zero_score_not_flagged`. -/
theorem low_score_and_forced_flagged (env : PyEnv) (cfg : EngineConfig)
    (text : List Char) (doc_id : String) (aCands : List ACand)
    (forcedRaw : List ForcedRaw) (keepSpans : List KeepSpan)
    (allowlist : List (List Char)) :
    ∀ h ∈ (maskTextCore env cfg text doc_id aCands forcedRaw keepSpans
        allowlist).hits,
      ((h.score ≠ 0 ∧ h.score < cfg.review_threshold) ∨
        h.reason = "keep:money_no_context" ∨ h.source = "forced") →
      { h with review_flag := true } ∈
        (maskTextCore env cfg text doc_id aCands forcedRaw keepSpans
          allowlist).review := by
  unfold maskTextCore
  exact maskLoop_review_flag env cfg text allowlist doc_id _ _
    (by intro h hh; simp at hh)

/-- A LABEL-mode configuration with review threshold 1. -/
def c6cfg : EngineConfig :=
  { entity_priority := [], mode := "LABEL", black_min_len := 3
    label_format := [], addr_gran := "UNTIL_CITY", prefectures := []
    municipalities := [], review_threshold := 1 }

/-- A LABEL-mode configuration with review threshold 2. -/
def c6cfg2 : EngineConfig :=
  { entity_priority := [], mode := "LABEL", black_min_len := 3
    label_format := [], addr_gran := "UNTIL_CITY", prefectures := []
    municipalities := [], review_threshold := 2 }

/-- C6 fails as stated for a score of 0: an analyzer hit with score 0,
below the review threshold 1, neither forced nor a money pass-through,
is reported in `hits` but the review list stays empty, because the
Python truthiness test `score and score < review_th` short-circuits to
falsy on a zero score. -/
theorem zero_score_not_flagged :
    (maskTextCore pyEnvTriv c6cfg "abcdef".data "doc"
      [{ start := 0, end_ := 2, entity_type := "PERSON", score := 0 }]
      [] [] []).review = [] ∧
    (maskTextCore pyEnvTriv c6cfg "abcdef".data "doc"
      [{ start := 0, end_ := 2, entity_type := "PERSON", score := 0 }]
      [] [] []).hits.map (fun h => (h.score, h.reason, h.source)) =
      [(0, "mask:stable_id", "analyzer")] ∧
    (0 : ℚ) < c6cfg.review_threshold := by
  refine ⟨by decide, by decide, by decide⟩

/-- The hit of the closed C6 instance (score 1, threshold 2). -/
def c6hit : Hit :=
  { doc_id := "doc", entity_type := "PERSON", start := 0, end_ := 2
    score := 1, original := "ab".data
    replacement := "[PERSON_\x7bn:02d\x7d]1".data
    reason := "mask:stable_id", source := "analyzer", review_flag := false }

/-- Closed instance of the amended C6: a nonzero score below the
threshold puts the flagged hit on the review list. -/
theorem low_score_and_forced_flagged_inst :
    c6hit ∈ (maskTextCore pyEnvTriv c6cfg2 "abcdef".data "doc"
      [{ start := 0, end_ := 2, entity_type := "PERSON", score := 1 }]
      [] [] []).hits ∧
    (c6hit.score ≠ 0 ∧ c6hit.score < c6cfg2.review_threshold) ∧
    { c6hit with review_flag := true } ∈
      (maskTextCore pyEnvTriv c6cfg2 "abcdef".data "doc"
        [{ start := 0, end_ := 2, entity_type := "PERSON", score := 1 }]
        [] [] []).review :=
  ⟨by decide, by decide,
   low_score_and_forced_flagged pyEnvTriv c6cfg2 "abcdef".data "doc"
     [{ start := 0, end_ := 2, entity_type := "PERSON", score := 1 }]
     [] [] [] c6hit (by decide) (Or.inl (by decide))⟩

/-! ## The frame property of the output loop -/

/-- The output string determined by a hit list alone: for each hit in
order, the untouched input slice from the previous hit's end to this
hit's start, then the hit's replacement; after the last hit, the tail of
the input. -/
def buildFromHits (text : List Char) : Nat → List Hit → List Char
  | last, [] => text.drop last
  | last, h :: t =>
      pySlice text last h.start ++ h.replacement ++ buildFromHits text h.end_ t

/-- The input characters at positions at or after `cur` that lie outside
every hit span, in their original order. -/
def outsideChars (text : List Char) (hits : List Hit) (cur : Nat) : List Char :=
  ((List.range' cur (text.length - cur)).filter
    (fun p => hits.all
      (fun h => !(decide (h.start ≤ p) && decide (p < h.end_))))).map
    (fun p => text.getD p ' ')

theorem map_getD_range'_slice (text : List Char) :
    ∀ (n i : Nat), i + n ≤ text.length →
      (List.range' i n).map (fun p => text.getD p ' ') =
        pySlice text i (i + n) := by
  intro n
  induction n with
  | zero => intro i _; simp [pySlice]
  | succ n ih =>
      intro i h
      have hi : i < text.length := by omega
      rw [show List.range' i (n + 1) = i :: List.range' (i + 1) n from rfl,
        List.map_cons, ih (i + 1) (by omega)]
      show _ :: pySlice text (i + 1) (i + 1 + n) = pySlice text i (i + (n + 1))
      unfold pySlice
      rw [show i + 1 + n - (i + 1) = n from by omega,
        show i + (n + 1) - i = n + 1 from by omega,
        List.drop_eq_getElem_cons hi, List.take_succ_cons,
        List.getD_eq_getElem text ' ' hi]

theorem map_getD_range'_window (text : List Char) (i : Nat)
    (h : i ≤ text.length) :
    (List.range' i (text.length - i)).map (fun p => text.getD p ' ') =
      text.drop i := by
  have h1 := map_getD_range'_slice text (text.length - i) i (by omega)
  rw [show i + (text.length - i) = text.length from by omega] at h1
  rw [h1]
  show (text.drop i).take (text.length - i) = text.drop i
  rw [← List.length_drop]
  exact List.take_length _

theorem window_split (i m L : Nat) (h1 : i ≤ m) (h2 : m ≤ L) :
    List.range' i (L - i) = List.range' i (m - i) ++ List.range' m (L - m) := by
  have h := List.range'_append i (m - i) (L - m) 1
  rw [show i + 1 * (m - i) = m from by omega,
    show L - m + (m - i) = L - i from by omega] at h
  exact h.symm

theorem maskLoop_out_spec (env : PyEnv) (cfg : EngineConfig)
    (text : List Char) (allowlist : List (List Char)) (doc_id : String) :
    ∀ (rs : List Cand) (st : LoopState),
      ∃ nh : List Hit,
        (maskLoop env cfg text allowlist doc_id st rs).hits = st.hits ++ nh ∧
        (maskLoop env cfg text allowlist doc_id st rs).out ++
            text.drop (maskLoop env cfg text allowlist doc_id st rs).last =
          st.out ++ buildFromHits text st.last nh := by
  intro rs
  induction rs with
  | nil =>
      intro st
      exact ⟨[], by simp [maskLoop], by simp [maskLoop, buildFromHits]⟩
  | cons r rest ih =>
      intro st
      obtain ⟨nh, h1, h2⟩ := ih (maskStep env cfg text allowlist doc_id st r)
      refine ⟨(Hit.mk doc_id r.entity_type (spanOf text r).1 (spanOf text r).2
        r.score
        (pySlice text (spanOf text r).1 (spanOf text r).2)
        (replReason env cfg text allowlist st.sid r
          (spanOf text r).1 (spanOf text r).2
          (pySlice text (spanOf text r).1 (spanOf text r).2)).1
        (replReason env cfg text allowlist st.sid r
          (spanOf text r).1 (spanOf text r).2
          (pySlice text (spanOf text r).1 (spanOf text r).2)).2.1
        r.source false) :: nh, ?_, ?_⟩
      · rw [show maskLoop env cfg text allowlist doc_id st (r :: rest) =
            maskLoop env cfg text allowlist doc_id
              (maskStep env cfg text allowlist doc_id st r) rest from rfl, h1]
        simp [maskStep]
      · rw [show maskLoop env cfg text allowlist doc_id st (r :: rest) =
            maskLoop env cfg text allowlist doc_id
              (maskStep env cfg text allowlist doc_id st r) rest from rfl, h2]
        simp [maskStep, buildFromHits, List.append_assoc]

theorem outsideChars_sublist (text : List Char) :
    ∀ (hits : List Hit) (cur : Nat),
      (outsideChars text hits cur).Sublist (buildFromHits text cur hits) := by
  intro hits
  induction hits with
  | nil =>
      intro cur
      unfold outsideChars buildFromHits
      rw [List.filter_eq_self.mpr (by intro p _; simp)]
      by_cases hc : cur ≤ text.length
      · rw [map_getD_range'_window text cur hc]
      · rw [show text.length - cur = 0 from by omega]
        simp
  | cons h t ih =>
      intro cur
      by_cases hcL : text.length ≤ cur
      · unfold outsideChars
        rw [show text.length - cur = 0 from by omega]
        exact List.nil_sublist _
      · have hcur : cur < text.length := by omega
        set a := min (max h.start cur) text.length with ha
        set b := min (max h.end_ (max h.start cur)) text.length with hb
        have hca : cur ≤ a := by omega
        have hab : a ≤ b := by omega
        have hbL : b ≤ text.length := by omega
        unfold outsideChars
        rw [window_split cur a text.length hca (by omega),
          window_split a b text.length hab hbL,
          List.filter_append, List.filter_append,
          List.map_append, List.map_append]
        have hmid : (List.range' a (b - a)).filter
            (fun p => (h :: t).all
              (fun h' => !(decide (h'.start ≤ p) && decide (p < h'.end_)))) =
            [] := by
          rw [List.filter_eq_nil_iff]
          intro p hp
          rw [List.mem_range'_1] at hp
          have hse : h.start ≤ p ∧ p < h.end_ := by omega
          simp [List.all_cons, hse.1, hse.2]
        rw [hmid]
        have hfirst : (List.range' cur (a - cur)).filter
            (fun p => (h :: t).all
              (fun h' => !(decide (h'.start ≤ p) && decide (p < h'.end_)))) =
            (List.range' cur (a - cur)).filter
              (fun p => t.all
                (fun h' => !(decide (h'.start ≤ p) && decide (p < h'.end_)))) := by
          apply List.filter_congr
          intro p hp
          rw [List.mem_range'_1] at hp
          have hps : p < h.start := by omega
          simp [List.all_cons, show ¬ h.start ≤ p from by omega]
        have hthird : (List.range' b (text.length - b)).filter
            (fun p => (h :: t).all
              (fun h' => !(decide (h'.start ≤ p) && decide (p < h'.end_)))) =
            (List.range' b (text.length - b)).filter
              (fun p => t.all
                (fun h' => !(decide (h'.start ≤ p) && decide (p < h'.end_)))) := by
          apply List.filter_congr
          intro p hp
          rw [List.mem_range'_1] at hp
          have hpe : h.end_ ≤ p := by omega
          simp [List.all_cons, show ¬ p < h.end_ from by omega]
        rw [hfirst, hthird]
        show List.Sublist (_ ++ ([] ++ _)) (buildFromHits text cur (h :: t))
        rw [List.nil_append]
        have hbuild : buildFromHits text cur (h :: t) =
            pySlice text cur h.start ++
              (h.replacement ++ buildFromHits text h.end_ t) := by
          simp [buildFromHits, List.append_assoc]
        rw [hbuild]
        refine List.Sublist.append ?_ ?_
        · refine List.Sublist.trans
            (((List.filter_sublist _).map (fun p => text.getD p ' '))) ?_
          have heq1 := map_getD_range'_slice text (a - cur) cur (by omega)
          rw [show cur + (a - cur) = a from by omega] at heq1
          rw [heq1]
          unfold pySlice
          have := List.take_eq_take.mpr
            (show min (a - cur) (text.drop cur).length =
              min (h.start - cur) (text.drop cur).length from by
                rw [List.length_drop]; omega)
          rw [this]
        · have hObB : List.map (fun p => text.getD p ' ')
              (List.filter
                (fun p => t.all
                  (fun h' => !(decide (h'.start ≤ p) && decide (p < h'.end_))))
                (List.range' b (text.length - b))) = outsideChars text t b := rfl
          rw [hObB]
          have h3 : (outsideChars text t b).Sublist (buildFromHits text h.end_ t) := by
            by_cases heb : h.end_ ≤ b
            · have hOsplit : outsideChars text t h.end_ =
                  ((List.range' h.end_ (b - h.end_)).filter
                    (fun p => t.all (fun h' =>
                      !(decide (h'.start ≤ p) && decide (p < h'.end_))))).map
                    (fun p => text.getD p ' ') ++ outsideChars text t b := by
                unfold outsideChars
                rw [window_split h.end_ b text.length heb hbL,
                  List.filter_append, List.map_append]
              have : (outsideChars text t b).Sublist (outsideChars text t h.end_) := by
                rw [hOsplit]
                exact List.sublist_append_right _ _
              exact this.trans (ih h.end_)
            · have hbe : b = text.length := by omega
              have : outsideChars text t b = [] := by
                unfold outsideChars
                rw [show text.length - b = 0 from by omega]
                rfl
              rw [this]
              exact List.nil_sublist _
          exact h3.trans (List.sublist_append_right _ _)

/-- C10: the frame property of `mask_text_with_report`'s output loop —
the masked text equals, hit by hit in order, the untouched input slice
from the previous hit's end to the hit's start followed by the hit's
replacement, ending with the input's tail after the last hit; every input
character lying outside every final hit span appears unchanged and in its
original order in the masked output; and when no hit is resolved the
output equals the input exactly. -/
theorem mask_frame_property (env : PyEnv) (cfg : EngineConfig)
    (text : List Char) (doc_id : String) (aCands : List ACand)
    (forcedRaw : List ForcedRaw) (keepSpans : List KeepSpan)
    (allowlist : List (List Char)) :
    (maskTextCore env cfg text doc_id aCands forcedRaw keepSpans
        allowlist).masked =
      buildFromHits text 0
        (maskTextCore env cfg text doc_id aCands forcedRaw keepSpans
          allowlist).hits ∧
    (outsideChars text
        (maskTextCore env cfg text doc_id aCands forcedRaw keepSpans
          allowlist).hits 0).Sublist
      (maskTextCore env cfg text doc_id aCands forcedRaw keepSpans
        allowlist).masked ∧
    ((maskTextCore env cfg text doc_id aCands forcedRaw keepSpans
        allowlist).hits = [] →
      (maskTextCore env cfg text doc_id aCands forcedRaw keepSpans
        allowlist).masked = text) := by
  obtain ⟨nh, h1, h2⟩ := maskLoop_out_spec env cfg text allowlist doc_id
    (resolvedCandidates cfg aCands forcedRaw keepSpans)
    { out := [], hits := [], review := [], last := 0
      sid := StableIdState.create }
  have hm : (maskTextCore env cfg text doc_id aCands forcedRaw keepSpans
      allowlist).masked =
      buildFromHits text 0
        (maskTextCore env cfg text doc_id aCands forcedRaw keepSpans
          allowlist).hits := by
    show (maskLoop env cfg text allowlist doc_id
        { out := [], hits := [], review := [], last := 0
          sid := StableIdState.create }
        (resolvedCandidates cfg aCands forcedRaw keepSpans)).out ++
        text.drop (maskLoop env cfg text allowlist doc_id
          { out := [], hits := [], review := [], last := 0
            sid := StableIdState.create }
          (resolvedCandidates cfg aCands forcedRaw keepSpans)).last =
      buildFromHits text 0 (maskLoop env cfg text allowlist doc_id
        { out := [], hits := [], review := [], last := 0
          sid := StableIdState.create }
        (resolvedCandidates cfg aCands forcedRaw keepSpans)).hits
    rw [h2, h1]
    simp
  refine ⟨hm, ?_, ?_⟩
  · rw [hm]
    exact outsideChars_sublist text _ 0
  · intro hnil
    rw [hm, hnil]
    simp [buildFromHits]

/-- Closed instance of C10: with no candidates at all, no hit is
resolved and the masked output equals the input exactly. -/
theorem mask_frame_property_inst :
    (maskTextCore pyEnvTriv c6cfg "abc".data "doc" [] [] [] []).hits = [] ∧
    (maskTextCore pyEnvTriv c6cfg "abc".data "doc" [] [] [] []).masked =
      "abc".data :=
  ⟨by decide,
   (mask_frame_property pyEnvTriv c6cfg "abc".data "doc" [] [] [] []).2.2
     (by decide)⟩

end LegalMask
